import Mathlib

/-!
Verification of the `kac_drumset` membrane-acoustics core against its
natural-language specification.

The definitions below are shallow embeddings of the Python source under
`src/kac_drumset`.  Floating-point quantities are modelled as real numbers;
the value `np.inf` (allowed for the decay time) is modelled by an `Option`
whose `none` constructor stands for infinity; IEEE divisions that can produce
NaN or an infinity are modelled by `Option`-valued results, `none` standing
for the non-real outcome.
-/

namespace KacDrumset

noncomputable section

open Classical

/-! ## Geometry: `geometry/ellipse.py` -/

/-- Shallow embedding of the class `Ellipse` from `geometry/ellipse.py`:
axes `major` and `minor`, and a `centroid`. -/
structure Ellipse where
  major : ℝ
  minor : ℝ
  centroid : ℝ × ℝ

/-- `Ellipse.__init__` for explicitly supplied axes: the source stores the
arguments as given when `major > minor`, and swaps them otherwise, so the
stored major axis is the larger argument. -/
def Ellipse.init (major minor : ℝ) (centroid : ℝ × ℝ) : Ellipse :=
  if major > minor then ⟨major, minor, centroid⟩ else ⟨minor, major, centroid⟩

/-- The `area` getter: `self.major * self.minor * np.pi`. -/
def Ellipse.area (e : Ellipse) : ℝ := e.major * e.minor * Real.pi

/-- The `area` setter.  The source computes `epsilon = self.major / self.minor`,
`scaled_a = (a / np.pi) ** 0.5`, then stores `major = scaled_a * epsilon` and
`minor = scaled_a / epsilon`.  Two Python failure modes are modelled as `none`:
a zero axis makes one of the float divisions raise `ZeroDivisionError`
(`epsilon` when `minor = 0`, `scaled_a / epsilon` when `major = 0`), and a
negative `a` makes `(a / np.pi) ** 0.5` return a complex number rather than a
float, corrupting the stored axes. -/
def Ellipse.setArea (e : Ellipse) (a : ℝ) : Option Ellipse :=
  if e.minor = 0 ∨ e.major = 0 ∨ a < 0 then none
  else
    some { e with
      major := Real.sqrt (a / Real.pi) * (e.major / e.minor),
      minor := Real.sqrt (a / Real.pi) / (e.major / e.minor) }

/-- The `centroid` setter: translates the ellipse, leaving the axes alone. -/
def Ellipse.setCentroid (e : Ellipse) (v : ℝ × ℝ) : Ellipse := { e with centroid := v }

/-- `Ellipse.isPointInside`: boundary-inclusive algebraic containment,
`((p.x - cx)² / major²) + ((p.y - cy)² / minor²) <= 1`. -/
def Ellipse.isPointInside (e : Ellipse) (p : ℝ × ℝ) : Prop :=
  ((p.1 - e.centroid.1) ^ 2 / e.major ^ 2) + ((p.2 - e.centroid.2) ^ 2 / e.minor ^ 2) ≤ 1

/-- `Circle.__init__`: delegates to `Ellipse.__init__` with both axes equal to
the radius. -/
def Circle.init (r : ℝ) (centroid : ℝ × ℝ) : Ellipse := Ellipse.init r r centroid

/-- The `Circle.r` setter: writes the value to both axes. -/
def Circle.setR (e : Ellipse) (v : ℝ) : Ellipse := { e with major := v, minor := v }

/-- Python's builtin `round` (round half to even), as applied by the source to
the float expressions `(grid_size - 1) / 2` and `half_grid * minor / major`. -/
def pythonRound (x : ℝ) : ℤ :=
  if x - (⌊x⌋ : ℝ) < 1 / 2 then ⌊x⌋
  else if 1 / 2 < x - (⌊x⌋ : ℝ) then ⌊x⌋ + 1
  else if ⌊x⌋ % 2 = 0 then ⌊x⌋ else ⌊x⌋ + 1

/-- Models the external OpenCV primitive `cv2.circle` with a negative
thickness (filled disc): the cell `(x, y)` is foreground exactly when its
Euclidean distance from the centre `(cx, cy)` is at most `radius`. -/
def cvCircleCell (cx cy radius x y : ℤ) : ℤ :=
  if (x - cx) ^ 2 + (y - cy) ^ 2 ≤ radius ^ 2 then 1 else 0

/-- Models the external OpenCV primitive `cv2.ellipse` with a negative
thickness (filled axis-aligned ellipse with semi-axes `a`, `b`): the cell
`(x, y)` is foreground exactly when `(x-cx)²/a² + (y-cy)²/b² <= 1`, written
here over the integers. -/
def cvEllipseCell (cx cy a b x y : ℤ) : ℤ :=
  if b ^ 2 * (x - cx) ^ 2 + a ^ 2 * (y - cy) ^ 2 ≤ a ^ 2 * b ^ 2 then 1 else 0

/-- `Ellipse.draw`: rasterizes the shape onto a `grid_size` × `grid_size`
grid with `half_grid = round((grid_size - 1) / 2)`; a circle (`major = minor`)
is drawn with `cv2.circle` at centre `(half_grid, half_grid)` and radius
`half_grid`, otherwise `cv2.ellipse` is used with semi-axes
`(half_grid, round(half_grid * minor / major))`. -/
def Ellipse.draw (e : Ellipse) (grid_size : ℕ) (x y : ℤ) : ℤ :=
  if e.major = e.minor then
    cvCircleCell (pythonRound (((grid_size : ℝ) - 1) / 2))
      (pythonRound (((grid_size : ℝ) - 1) / 2))
      (pythonRound (((grid_size : ℝ) - 1) / 2)) x y
  else
    cvEllipseCell (pythonRound (((grid_size : ℝ) - 1) / 2))
      (pythonRound (((grid_size : ℝ) - 1) / 2))
      (pythonRound (((grid_size : ℝ) - 1) / 2))
      (pythonRound ((pythonRound (((grid_size : ℝ) - 1) / 2) : ℝ) * e.minor / e.major))
      x y

theorem pythonRound_intCast (n : ℤ) : pythonRound (n : ℝ) = n := by
  have h : ((n : ℝ) - (⌊(n : ℝ)⌋ : ℝ)) = 0 := by
    rw [Int.floor_intCast]; ring
  unfold pythonRound
  rw [h]
  norm_num

theorem circleInit_axes (r : ℝ) (c : ℝ × ℝ) :
    (Circle.init r c).major = r ∧ (Circle.init r c).minor = r := by
  unfold Circle.init Ellipse.init
  simp [lt_irrefl]

theorem halfGrid_101 : pythonRound ((((101 : ℕ) : ℝ) - 1) / 2) = 50 := by
  have h : (((101 : ℕ) : ℝ) - 1) / 2 = ((50 : ℤ) : ℝ) := by norm_num
  rw [h, pythonRound_intCast]

theorem circle_draw_eq (r : ℝ) (x y : ℤ) :
    (Circle.init r (0, 0)).draw 101 x y = cvCircleCell 50 50 50 x y := by
  obtain ⟨hmaj, hmin⟩ := circleInit_axes r (0, 0)
  unfold Ellipse.draw
  simp only [hmaj, hmin, if_true, eq_self_iff_true, halfGrid_101]

/-- C7: for every radius in {0.1, 0.25, 0.5, 1.0}, rasterizing the circle of
that radius onto a 101 × 101 grid with `draw` marks the centre cell (50, 50)
as foreground and all four corner cells as background.  (The circle branch of
`draw` always paints the disc of radius `half_grid` about the grid centre,
independently of `r`.) -/
theorem circle_draw_center_corners (r : ℝ)
    (hr : r ∈ ({0.1, 0.25, 0.5, 1.0} : Set ℝ)) :
    (Circle.init r (0, 0)).draw 101 50 50 = 1 ∧
    (Circle.init r (0, 0)).draw 101 0 0 = 0 ∧
    (Circle.init r (0, 0)).draw 101 0 100 = 0 ∧
    (Circle.init r (0, 0)).draw 101 100 0 = 0 ∧
    (Circle.init r (0, 0)).draw 101 100 100 = 0 := by
  clear hr
  rw [circle_draw_eq, circle_draw_eq, circle_draw_eq, circle_draw_eq, circle_draw_eq]
  unfold cvCircleCell
  norm_num

/-- C7 witness: the theorem instantiated at the concrete radius 1.0. -/
theorem circle_draw_center_corners_witness :
    (1.0 : ℝ) ∈ ({0.1, 0.25, 0.5, 1.0} : Set ℝ) ∧
    ((Circle.init 1.0 (0, 0)).draw 101 50 50 = 1 ∧
     (Circle.init 1.0 (0, 0)).draw 101 0 0 = 0 ∧
     (Circle.init 1.0 (0, 0)).draw 101 0 100 = 0 ∧
     (Circle.init 1.0 (0, 0)).draw 101 100 0 = 0 ∧
     (Circle.init 1.0 (0, 0)).draw 101 100 100 = 0) :=
  ⟨by norm_num, circle_draw_center_corners 1.0 (by norm_num)⟩

/-- C8: `isPointInside` is the boundary-inclusive algebraic containment test:
it holds exactly when `((px - cx)² / major²) + ((py - cy)² / minor²) <= 1`,
and in particular every point exactly on that boundary curve is inside. -/
theorem isPointInside_iff_algebraic (e : Ellipse) (p : ℝ × ℝ) :
    (e.isPointInside p ↔
      ((p.1 - e.centroid.1) ^ 2 / e.major ^ 2)
        + ((p.2 - e.centroid.2) ^ 2 / e.minor ^ 2) ≤ 1) ∧
    (((p.1 - e.centroid.1) ^ 2 / e.major ^ 2)
        + ((p.2 - e.centroid.2) ^ 2 / e.minor ^ 2) = 1 →
      e.isPointInside p) := by
  constructor
  · exact Iff.rfl
  · intro h
    exact le_of_eq h

/-- C8 witness: the point (2, 0) lies exactly on the boundary of the ellipse
with axes (2, 1) centred at the origin, and is reported inside. -/
theorem isPointInside_iff_algebraic_witness :
    (((2 : ℝ) - (0 : ℝ)) ^ 2 / (2 : ℝ) ^ 2 + ((0 : ℝ) - (0 : ℝ)) ^ 2 / (1 : ℝ) ^ 2 = 1) ∧
    Ellipse.isPointInside ⟨2, 1, (0, 0)⟩ (2, 0) :=
  ⟨by norm_num,
    (isPointInside_iff_algebraic ⟨2, 1, (0, 0)⟩ (2, 0)).2 (by norm_num)⟩

/-- C9: construction stores the larger argument as `major` and the smaller as
`minor`, so `minor <= major` immediately after construction; the ordering is
preserved by the area setter (whenever it returns a real result), untouched by
the centroid setter, and re-established by the `Circle.r` setter. -/
theorem ellipse_axis_order_invariant :
    (∀ a b c, (Ellipse.init a b c).major = max a b ∧
      (Ellipse.init a b c).minor = min a b ∧
      (Ellipse.init a b c).minor ≤ (Ellipse.init a b c).major) ∧
    (∀ (e : Ellipse) (a : ℝ) (e' : Ellipse), 0 < e.minor → e.minor ≤ e.major →
      0 ≤ a → e.setArea a = some e' → e'.minor ≤ e'.major) ∧
    (∀ (e : Ellipse) (v : ℝ × ℝ), (e.setCentroid v).major = e.major ∧
      (e.setCentroid v).minor = e.minor) ∧
    (∀ (e : Ellipse) (v : ℝ), (Circle.setR e v).minor ≤ (Circle.setR e v).major) := by
  refine ⟨?_, ?_, ?_, ?_⟩
  · intro a b c
    unfold Ellipse.init
    rcases lt_or_ge b a with h | h
    · rw [if_pos h]
      refine ⟨?_, ?_, ?_⟩ <;> simp [max_def, min_def, le_of_lt h]
    · rw [if_neg (not_lt.mpr h)]
      refine ⟨?_, ?_, ?_⟩ <;> simp [max_def, min_def, h]
  · intro e a e' hmin hord ha hset
    unfold Ellipse.setArea at hset
    rw [if_neg] at hset
    · injection hset with hset
      subst hset
      have hmaj : (0 : ℝ) < e.major := lt_of_lt_of_le hmin hord
      have heps : (1 : ℝ) ≤ e.major / e.minor := (one_le_div hmin).mpr hord
      have hs : (0 : ℝ) ≤ Real.sqrt (a / Real.pi) := Real.sqrt_nonneg _
      calc Real.sqrt (a / Real.pi) / (e.major / e.minor)
          ≤ Real.sqrt (a / Real.pi) := div_le_self hs heps
        _ ≤ Real.sqrt (a / Real.pi) * (e.major / e.minor) :=
            le_mul_of_one_le_right hs heps
    · push_neg
      exact ⟨ne_of_gt hmin, ne_of_gt (lt_of_lt_of_le hmin hord), ha⟩
  · intro e v
    exact ⟨rfl, rfl⟩
  · intro e v
    exact le_refl v

/-- C9 witness: the invariant machinery applied at concrete inputs, with every
hypothesis discharged on the ellipse with axes (2, 1) and area argument 0. -/
theorem ellipse_axis_order_invariant_witness :
    ((Ellipse.init 1 2 (0, 0)).major = max 1 2 ∧
      (Ellipse.init 1 2 (0, 0)).minor = min 1 2 ∧
      (Ellipse.init 1 2 (0, 0)).minor ≤ (Ellipse.init 1 2 (0, 0)).major) ∧
    (⟨0, 0, (0, 0)⟩ : Ellipse).minor ≤ (⟨0, 0, (0, 0)⟩ : Ellipse).major :=
  ⟨ellipse_axis_order_invariant.1 1 2 (0, 0),
    ellipse_axis_order_invariant.2.1 ⟨2, 1, (0, 0)⟩ 0 ⟨0, 0, (0, 0)⟩
      (by norm_num) (by norm_num) (by norm_num)
      (by unfold Ellipse.setArea
          rw [if_neg (by norm_num)]
          simp [Real.sqrt_zero])⟩

theorem aux_scale_mul (s eps p : ℝ) (heps : eps ≠ 0) :
    s * eps * (s / eps) * p = s * s * p := by
  field_simp
  ring

theorem aux_scale_div (s eps : ℝ) (hs : s ≠ 0) (heps : eps ≠ 0) :
    s * eps / (s / eps) = eps ^ 2 := by
  field_simp
  ring

/-- C10 (amended): for every ellipse with `0 < minor <= major` and every
`a > 0`, running the area setter makes the area getter return exactly `a`,
and the new aspect ratio `major / minor` is the square of the old one (so the
setter does not rescale uniformly); the area identity already holds for every
`a >= 0`. -/
theorem setArea_exact_and_squares_aspect (e : Ellipse) (a : ℝ) (e' : Ellipse)
    (hmin : 0 < e.minor) (hord : e.minor ≤ e.major)
    (hset : e.setArea a = some e') :
    (0 ≤ a → e'.area = a) ∧
    (0 < a → e'.major / e'.minor = (e.major / e.minor) ^ 2) := by
  have hmaj : (0 : ℝ) < e.major := lt_of_lt_of_le hmin hord
  have hnn : ¬ a < 0 := by
    intro ha
    unfold Ellipse.setArea at hset
    rw [if_pos (Or.inr (Or.inr ha))] at hset
    exact Option.noConfusion hset
  unfold Ellipse.setArea at hset
  rw [if_neg (by push_neg; exact ⟨ne_of_gt hmin, ne_of_gt hmaj, not_lt.mp hnn⟩)] at hset
  · constructor
    · intro ha
      injection hset with hset
      subst hset
      unfold Ellipse.area
      have heps : e.major / e.minor ≠ 0 := ne_of_gt (div_pos hmaj hmin)
      have hsq : Real.sqrt (a / Real.pi) * Real.sqrt (a / Real.pi) = a / Real.pi :=
        Real.mul_self_sqrt (div_nonneg ha (le_of_lt Real.pi_pos))
      show Real.sqrt (a / Real.pi) * (e.major / e.minor) *
          (Real.sqrt (a / Real.pi) / (e.major / e.minor)) * Real.pi = a
      rw [aux_scale_mul _ _ _ heps, hsq, div_mul_cancel₀ _ (ne_of_gt Real.pi_pos)]
    · intro ha
      injection hset with hset
      subst hset
      have heps : e.major / e.minor ≠ 0 := ne_of_gt (div_pos hmaj hmin)
      have hs : Real.sqrt (a / Real.pi) ≠ 0 :=
        ne_of_gt (Real.sqrt_pos.mpr (div_pos ha Real.pi_pos))
      show Real.sqrt (a / Real.pi) * (e.major / e.minor) /
            (Real.sqrt (a / Real.pi) / (e.major / e.minor)) = (e.major / e.minor) ^ 2
      exact aux_scale_div _ _ hs heps

/-- C10 witness: on the ellipse with axes (2, 1) and target area π the setter
yields axes (2, 1/2); the getter then returns exactly π and the aspect ratio
has squared from 2 to 4. -/
theorem setArea_exact_and_squares_aspect_witness :
    ((0 : ℝ) ≤ Real.pi → Ellipse.area ⟨2, 1 / 2, (0, 0)⟩ = Real.pi) ∧
    ((0 : ℝ) < Real.pi →
      (⟨2, 1 / 2, (0, 0)⟩ : Ellipse).major / (⟨2, 1 / 2, (0, 0)⟩ : Ellipse).minor
        = ((⟨2, 1, (0, 0)⟩ : Ellipse).major / (⟨2, 1, (0, 0)⟩ : Ellipse).minor) ^ 2) :=
  setArea_exact_and_squares_aspect ⟨2, 1, (0, 0)⟩ Real.pi ⟨2, 1 / 2, (0, 0)⟩
    (by norm_num) (by norm_num)
    (by unfold Ellipse.setArea
        rw [if_neg (by push_neg; exact ⟨by norm_num, by norm_num, le_of_lt Real.pi_pos⟩)]
        have h1 : Real.pi / Real.pi = (1 : ℝ) := div_self (ne_of_gt Real.pi_pos)
        simp only [h1, Real.sqrt_one]
        norm_num)

/-- C10 counterexample: the claim quantifies over every `a >= 0`, but at
`a = 0` the setter collapses both axes of the ellipse with axes (2, 1) to 0,
and the resulting aspect ratio (0/0, a `ZeroDivisionError` in Python, 0 in
Lean's total real division) is not the square 4 of the previous aspect
ratio 2. -/
theorem setArea_zero_counterexample :
    ∃ e' : Ellipse, Ellipse.setArea ⟨2, 1, (0, 0)⟩ 0 = some e' ∧
      e'.major = 0 ∧ e'.minor = 0 ∧
      ¬ e'.major / e'.minor
          = ((⟨2, 1, (0, 0)⟩ : Ellipse).major / (⟨2, 1, (0, 0)⟩ : Ellipse).minor) ^ 2 := by
  refine ⟨⟨0, 0, (0, 0)⟩, ?_, rfl, rfl, ?_⟩
  · unfold Ellipse.setArea
    rw [if_neg (by norm_num)]
    simp [Real.sqrt_zero]
  · norm_num

/-! ## Sampler harness: `dataset/audio_sampler.py` and `sampler/audio_sampler.py` -/

/-- Shallow embedding of the data owned by `AudioSampler.__init__` (identical
in `dataset/audio_sampler.py` and `sampler/audio_sampler.py`).  The duration
is a (finite, hence rational) float; the waveform entries are reals. -/
structure AudioSamplerBase where
  duration : ℚ
  sample_rate : ℕ
  length : ℕ
  waveform : List ℝ

/-- `AudioSampler.__init__`: stores the arguments, sets
`length = math.ceil(duration * sample_rate)` and preallocates
`waveform = np.zeros(length)`. -/
def AudioSamplerBase.init (duration : ℚ) (sample_rate : ℕ) : AudioSamplerBase :=
  { duration := duration
    sample_rate := sample_rate
    length := (⌈duration * (sample_rate : ℚ)⌉ : ℤ).toNat
    waveform := List.replicate (⌈duration * (sample_rate : ℚ)⌉ : ℤ).toNat 0 }

/-- C6: the constructor sets `length = ceil(duration * sample_rate)` (the
integer ceiling coincides with the stored natural number whenever
`duration > 0`) and preallocates the waveform as exactly `length` zero
samples. -/
theorem audioSampler_init_contract (d : ℚ) (sr : ℕ) :
    (AudioSamplerBase.init d sr).length = (⌈d * (sr : ℚ)⌉ : ℤ).toNat ∧
    (AudioSamplerBase.init d sr).waveform
      = List.replicate (AudioSamplerBase.init d sr).length 0 ∧
    (AudioSamplerBase.init d sr).waveform.length = (AudioSamplerBase.init d sr).length ∧
    (0 < d → ((AudioSamplerBase.init d sr).length : ℤ) = ⌈d * (sr : ℚ)⌉) := by
  refine ⟨rfl, rfl, List.length_replicate _ _, ?_⟩
  intro hd
  have h0 : (0 : ℤ) ≤ ⌈d * (sr : ℚ)⌉ :=
    Int.ceil_nonneg (mul_nonneg (le_of_lt hd) (by positivity))
  exact Int.toNat_of_nonneg h0

/-- C6 witness: a sampler constructed with duration 1.5 s at 3 Hz has
`ceil(4.5) = 5` preallocated zero samples. -/
theorem audioSampler_init_contract_witness :
    (0 : ℚ) < 3 / 2 ∧ ((AudioSamplerBase.init (3 / 2) 3).length : ℤ) = ⌈(3 / 2 : ℚ) * ((3 : ℕ) : ℚ)⌉ :=
  ⟨by norm_num, (audioSampler_init_contract (3 / 2) 3).2.2.2 (by norm_num)⟩

/-! ## Modal synthesizer: `samplers/poisson_model.py`

The eigenmode library (`physics/modes.py`) is not part of the sources at
hand — only its import sites are — so its two rectangular routines are
modelled from the specification below. -/

/-- Modelled from the spec: `calculateRectangularSeries(M, N, aspectRatio)`
(`physics/modes.py`, absent from the sources) returns an M × N array of
scaled eigenfrequency terms for a rectangular membrane of given aspect ratio;
for the unit-area rectangle of sides √ε × 1/√ε the (m, n) eigenfrequency term
is π √((m / √ε)² + (n √ε)²), m and n counted from 1. -/
def calculateRectangularSeries (M N : ℕ) (eps : ℝ) : List (List ℝ) :=
  (List.range M).map fun (m : ℕ) => (List.range N).map fun (n : ℕ) =>
    Real.pi * Real.sqrt
      ((((m : ℝ) + 1) / Real.sqrt eps) ^ 2 + (((n : ℝ) + 1) * Real.sqrt eps) ^ 2)

/-- Modelled from the spec: `calculateRectangularAmplitudes(strikePoint, M, N,
aspectRatio)` (`physics/modes.py`, absent from the sources) returns an M × N
array of amplitude weights derived from the trigonometric mode shapes of the
rectangle [0, √ε] × [0, 1/√ε] evaluated at the strike point:
sin(m π x / √ε) · sin(n π y √ε), m and n counted from 1. -/
def calculateRectangularAmplitudes (p : ℝ × ℝ) (M N : ℕ) (eps : ℝ) : List (List ℝ) :=
  (List.range M).map fun (m : ℕ) => (List.range N).map fun (n : ℕ) =>
    Real.sin (((m : ℝ) + 1) * Real.pi * p.1 / Real.sqrt eps) *
      Real.sin (((n : ℝ) + 1) * Real.pi * p.2 * Real.sqrt eps)

/-- Models `random.uniform(lo, hi)`: `lo + (hi - lo) * u` where `u` is the
underlying draw of `random.random()`, a value in [0, 1]. -/
def uniform (lo hi u : ℝ) : ℝ := lo + (hi - lo) * u

/-- Models an IEEE-754 float division whose divisor may be `np.inf`
(represented by `none`): dividing the finite dividend by +∞ yields (negative)
zero — a real number, not NaN. -/
def divByMaybeInf (x : ℝ) : Option ℝ → ℝ
  | none => 0
  | some y => x / y

/-- The drum properties of `PoissonModel` that exist only after the first
`updateProperties` call (the source detects them via `hasattr(self, 'L')`):
aspect ratio `epsilon`, drum size `L`, scaled wavespeed `gamma`, the
eigenmode series, and the strike location. -/
structure DrumProps where
  epsilon : ℝ
  L : ℝ
  gamma : ℝ
  series : List (List ℝ)
  strike : ℝ × ℝ

/-- Shallow embedding of the `PoissonModel` state.  `waveform` entries are
`Option ℝ`, `none` standing for an IEEE NaN/Inf sample; `d_60 = none` stands
for `decay_time = np.inf`; `drum = none` is the uninitialised state before
the first `updateProperties` call. -/
structure PoissonModel where
  duration : ℚ
  sample_rate : ℕ
  length : ℕ
  waveform : List (Option ℝ)
  a : ℝ
  d_60 : Option ℝ
  M : ℕ
  N : ℕ
  p : ℝ
  t : ℝ
  c : ℝ
  k : ℝ
  decay : ℝ
  drum : Option DrumProps

/-- `PoissonModel.__init__`: stores the user parameters, runs the
`AudioSampler` base constructor (`length = ceil(duration * sample_rate)`,
zero waveform), and infers `c = (t / p) ** 0.5`, `k = 1 / sample_rate` and
`decay = -1 * k * 6 * np.log(10) / d_60` (an IEEE division whose divisor may
be `np.inf`). -/
def PoissonModel.init (duration : ℚ) (sample_rate : ℕ) (amplitude : ℝ)
    (decay_time : Option ℝ) (M N : ℕ) (material_density tension : ℝ) : PoissonModel :=
  { duration := duration
    sample_rate := sample_rate
    length := (⌈duration * (sample_rate : ℚ)⌉ : ℤ).toNat
    waveform := List.replicate (⌈duration * (sample_rate : ℚ)⌉ : ℤ).toNat (some 0)
    a := amplitude
    d_60 := decay_time
    M := M
    N := N
    p := material_density
    t := tension
    c := Real.sqrt (tension / material_density)
    k := 1 / (sample_rate : ℝ)
    decay := divByMaybeInf (-1 * (1 / (sample_rate : ℝ)) * 6 * Real.log 10) decay_time
    drum := none }

/-- The decay constant as the spec words it: derived from the 60 dB decay
time by `decayConstant = -sampleInterval * 6 * ln(10) / d60`, with the
infinite decay time handled as an explicit special case giving exactly 0. -/
def decaySpecced (k : ℝ) (d60 : Option ℝ) : ℝ :=
  match d60 with
  | none => 0
  | some d => -(k * 6 * Real.log 10) / d

/-- The decay constant exactly as the source computes it. -/
def decayCode (k : ℝ) (d60 : Option ℝ) : ℝ :=
  divByMaybeInf (-1 * k * 6 * Real.log 10) d60

/-- `PoissonModel.getLabels`: `{}` while `hasattr(self, 'L')` is false,
otherwise the aspect ratio, drum size and strike location (the Python dict is
embedded as an association list in the source's insertion order). -/
def getLabels (m : PoissonModel) : List (String × List ℝ) :=
  match m.drum with
  | none => []
  | some d =>
    [("aspect_ratio", [d.epsilon]),
     ("drum_size", [d.L]),
     ("strike_location", [d.strike.1, d.strike.2])]

/-- The `i is None or i % 5 == 0` branch of `updateProperties`: resample the
aspect ratio in [0.25, 4] and the drum size in [0.1, 2], recompute
`gamma = c / L` and the eigenmode series, and strike the centroid
`(0.5 * ε^0.5, 0.5 / ε^0.5)`.  `uEps` and `uL` are the underlying
`random.random()` draws. -/
def resizeDrum (uEps uL : ℝ) (m : PoissonModel) : PoissonModel :=
  let dp : DrumProps :=
    { epsilon := uniform 0.25 4 uEps
      L := uniform 0.1 2 uL
      gamma := m.c / uniform 0.1 2 uL
      series := calculateRectangularSeries m.N m.M (uniform 0.25 4 uEps)
      strike := (0.5 * Real.sqrt (uniform 0.25 4 uEps),
                 0.5 / Real.sqrt (uniform 0.25 4 uEps)) }
  { m with drum := some dp }

/-- `PoissonModel.updateProperties(i)`: every fifth call (and the initial
`i = None` call) resamples the drum through `resizeDrum`; every other call
only redraws the strike location uniformly in [0, ε^0.5] × [0, 1/ε^0.5]
(`ux`, `uy` are the underlying `random.random()` draws).  On an uninitialised
model the strike-only branch reads `self.epsilon`, which raises
`AttributeError` in Python; that failure is modelled as `none`. -/
def updateProperties : Option ℕ → ℝ → ℝ → ℝ → ℝ → PoissonModel → Option PoissonModel
  | none, uEps, uL, _, _, m => some (resizeDrum uEps uL m)
  | some j, uEps, uL, ux, uy, m =>
    if j % 5 = 0 then some (resizeDrum uEps uL m)
    else
      match m.drum with
      | none => none
      | some d =>
        let s : ℝ × ℝ := (uniform 0 (Real.sqrt d.epsilon) ux,
          uniform 0 (1 / Real.sqrt d.epsilon) uy)
        some { m with drum := some { d with strike := s } }

/-- Models `np.max` on a vector: the maximum element (`np.max` raises on an
empty array; the empty case, unreachable for the M, N >= 1 mode counts used
here, is given the junk value 0). -/
def listMax : List ℝ → ℝ
  | [] => 0
  | x :: xs => xs.foldl max x

/-- The amplitude vector `A = self.a * np.abs(calculateRectangularAmplitudes(
self.strike, self.N, self.M, self.epsilon)).flatten()` of
`generateWaveform`. -/
def poissonA (m : PoissonModel) (d : DrumProps) : List ℝ :=
  (calculateRectangularAmplitudes d.strike m.N m.M d.epsilon).flatten.map
    fun x => m.a * |x|

/-- The phase-rate vector `omega = (self.gamma * self.series).flatten()
* 2 * np.pi * self.k` of `generateWaveform`. -/
def poissonOmega (m : PoissonModel) (d : DrumProps) : List ℝ :=
  d.series.flatten.map fun z => d.gamma * z * (2 * Real.pi * m.k)

/-- One sample of the additive synthesis,
`np.sum(A * np.exp(i * decay) * np.sin(i * omega)) / (omega.shape[0]
* np.max(A))`; a zero denominator makes the IEEE division return NaN (or an
infinity), modelled as `none`. -/
def poissonSample (A omega : List ℝ) (decay : ℝ) (i : ℕ) : Option ℝ :=
  if ((omega.length : ℝ) * listMax A) = 0 then none
  else some
    (((A.zip omega).map fun q =>
        q.1 * Real.exp ((i : ℝ) * decay) * Real.sin ((i : ℝ) * q.2)).sum
      / ((omega.length : ℝ) * listMax A))

/-- `PoissonModel.generateWaveform`: a no-op while `hasattr(self, 'L')` is
false; otherwise overwrites every one of the `length` waveform samples with
the additive-synthesis formula. -/
def generateWaveform (m : PoissonModel) : PoissonModel :=
  match m.drum with
  | none => m
  | some d =>
    { m with waveform :=
        (List.range m.length).map (poissonSample (poissonA m d) (poissonOmega m d) m.decay) }

/-- A concrete initialised model shared by the witnesses below: unit physical
parameters, one mode, aspect ratio 1, drum size 1, and centroid strike. -/
def wDrum : DrumProps :=
  { epsilon := 1
    L := 1
    gamma := 1
    series := calculateRectangularSeries 1 1 1
    strike := (1 / 2, 1 / 2) }

def wModel : PoissonModel :=
  { duration := 1, sample_rate := 1, length := 1, waveform := [some 0],
    a := 1, d_60 := none, M := 1, N := 1, p := 1, t := 1,
    c := 1, k := 1, decay := 0, drum := some wDrum }

/-- C3: a model constructed with `decay_time = np.inf` has decay constant
exactly 0, and the source's single unguarded IEEE division (finite dividend
over +∞) agrees everywhere with the spec's explicitly special-cased
definition of the decay constant — it produces the real number 0, never NaN
or an infinity. -/
theorem poisson_decay_inf_zero :
    (∀ (dur : ℚ) (sr : ℕ) (amp : ℝ) (M N : ℕ) (rho ten : ℝ),
      (PoissonModel.init dur sr amp none M N rho ten).decay = 0) ∧
    (∀ (k : ℝ) (d60 : Option ℝ), decayCode k d60 = decaySpecced k d60) := by
  constructor
  · intro dur sr amp M N rho ten
    rfl
  · intro k d60
    cases d60 with
    | none => rfl
    | some d =>
      show (-1 * k * 6 * Real.log 10) / d = -(k * 6 * Real.log 10) / d
      ring

/-- C4: `getLabels` returns the empty mapping on every state reachable before
the first `updateProperties` call (construction leaves `drum = none` and
`generateWaveform` preserves it); once a size has been initialised it returns
exactly the aspect ratio (one float), the drum size (one float) and the
strike location (two floats). -/
theorem poisson_getLabels_contract :
    (∀ (dur : ℚ) (sr : ℕ) (amp : ℝ) (d60 : Option ℝ) (M N : ℕ) (rho ten : ℝ),
      (PoissonModel.init dur sr amp d60 M N rho ten).drum = none ∧
      getLabels (PoissonModel.init dur sr amp d60 M N rho ten) = []) ∧
    (∀ m : PoissonModel, m.drum = none →
      getLabels m = [] ∧ (generateWaveform m).drum = none) ∧
    (∀ (m : PoissonModel) (d : DrumProps), m.drum = some d →
      getLabels m =
        [("aspect_ratio", [d.epsilon]),
         ("drum_size", [d.L]),
         ("strike_location", [d.strike.1, d.strike.2])]) := by
  refine ⟨fun dur sr amp d60 M N rho ten => ⟨rfl, rfl⟩, ?_, ?_⟩
  · intro m hm
    constructor
    · unfold getLabels
      rw [hm]
    · unfold generateWaveform
      rw [hm]
      exact hm
  · intro m d hm
    unfold getLabels
    rw [hm]

/-- C4 witness: the contract applied to a freshly constructed model and to
the concrete initialised model `wModel`. -/
theorem poisson_getLabels_contract_witness :
    (getLabels (PoissonModel.init 1 1 1 none 1 1 1 1) = [] ∧
      (generateWaveform (PoissonModel.init 1 1 1 none 1 1 1 1)).drum = none) ∧
    (wModel.drum = some wDrum ∧
      getLabels wModel =
        [("aspect_ratio", [wDrum.epsilon]),
         ("drum_size", [wDrum.L]),
         ("strike_location", [wDrum.strike.1, wDrum.strike.2])]) :=
  ⟨poisson_getLabels_contract.2.1 (PoissonModel.init 1 1 1 none 1 1 1 1) rfl,
   rfl, poisson_getLabels_contract.2.2 wModel wDrum rfl⟩

/-- C5: calling `generateWaveform` before the first `updateProperties` call
is a no-op: the state (in particular the waveform) is returned unchanged, and
that waveform is still the all-zero array of `length` samples allocated at
construction. -/
theorem poisson_generateWaveform_uninit_noop
    (dur : ℚ) (sr : ℕ) (amp : ℝ) (d60 : Option ℝ) (M N : ℕ) (rho ten : ℝ) :
    generateWaveform (PoissonModel.init dur sr amp d60 M N rho ten)
      = PoissonModel.init dur sr amp d60 M N rho ten ∧
    (PoissonModel.init dur sr amp d60 M N rho ten).waveform
      = List.replicate (PoissonModel.init dur sr amp d60 M N rho ten).length (some 0) :=
  ⟨rfl, rfl⟩

/-- C2: `updateProperties(i)` with `i = None` (and, identically, with any
multiple of five) resamples the drum size and aspect ratio, recomputes the
eigenmode series and sets `gamma = c / L`, striking the centroid of the valid
domain [0, ε^0.5] × [0, 1/ε^0.5]; every other call only redraws the strike
location, which stays inside that domain, and changes nothing else. -/
theorem poisson_updateProperties_contract :
    (∀ (m : PoissonModel) (uE uL ux uy : ℝ), ∃ dp : DrumProps,
      updateProperties none uE uL ux uy m = some { m with drum := some dp } ∧
      dp.epsilon = uniform 0.25 4 uE ∧
      dp.L = uniform 0.1 2 uL ∧
      dp.gamma = m.c / dp.L ∧
      dp.series = calculateRectangularSeries m.N m.M dp.epsilon ∧
      dp.strike.1 = (0 + Real.sqrt dp.epsilon) / 2 ∧
      dp.strike.2 = (0 + 1 / Real.sqrt dp.epsilon) / 2) ∧
    (∀ (m : PoissonModel) (j : ℕ) (uE uL ux uy : ℝ), j % 5 = 0 →
      updateProperties (some j) uE uL ux uy m = updateProperties none uE uL ux uy m) ∧
    (∀ (m : PoissonModel) (d : DrumProps) (j : ℕ) (uE uL ux uy : ℝ),
      m.drum = some d → j % 5 ≠ 0 → 0 ≤ ux → ux ≤ 1 → 0 ≤ uy → uy ≤ 1 →
      ∃ s : ℝ × ℝ,
        updateProperties (some j) uE uL ux uy m
          = some { m with drum := some { d with strike := s } } ∧
        0 ≤ s.1 ∧ s.1 ≤ Real.sqrt d.epsilon ∧
        0 ≤ s.2 ∧ s.2 ≤ 1 / Real.sqrt d.epsilon) := by
  refine ⟨?_, ?_, ?_⟩
  · intro m uE uL ux uy
    refine ⟨_, rfl, rfl, rfl, rfl, rfl, ?_, ?_⟩
    · show (0.5 : ℝ) * Real.sqrt (uniform 0.25 4 uE) = (0 + Real.sqrt (uniform 0.25 4 uE)) / 2
      ring
    · show (0.5 : ℝ) / Real.sqrt (uniform 0.25 4 uE) = (0 + 1 / Real.sqrt (uniform 0.25 4 uE)) / 2
      rw [zero_add, div_div, div_eq_mul_inv]
      norm_num
  · intro m j uE uL ux uy hj
    simp only [updateProperties]
    rw [if_pos hj]
  · intro m d j uE uL ux uy hd hj hux0 hux1 huy0 huy1
    simp only [updateProperties]
    rw [if_neg hj, hd]
    refine ⟨_, rfl, ?_, ?_, ?_, ?_⟩
    · show 0 ≤ uniform 0 (Real.sqrt d.epsilon) ux
      unfold uniform
      rw [zero_add, sub_zero]
      exact mul_nonneg (Real.sqrt_nonneg _) hux0
    · show uniform 0 (Real.sqrt d.epsilon) ux ≤ Real.sqrt d.epsilon
      unfold uniform
      rw [zero_add, sub_zero]
      exact mul_le_of_le_one_right (Real.sqrt_nonneg _) hux1
    · show 0 ≤ uniform 0 (1 / Real.sqrt d.epsilon) uy
      unfold uniform
      rw [zero_add, sub_zero]
      exact mul_nonneg (div_nonneg zero_le_one (Real.sqrt_nonneg _)) huy0
    · show uniform 0 (1 / Real.sqrt d.epsilon) uy ≤ 1 / Real.sqrt d.epsilon
      unfold uniform
      rw [zero_add, sub_zero]
      exact mul_le_of_le_one_right (div_nonneg zero_le_one (Real.sqrt_nonneg _)) huy1

/-- C2 witness: on the concrete model `wModel`, call 5 behaves like the
initial call and call 1 only redraws the strike, which lands inside
[0, ε^0.5] × [0, 1/ε^0.5]. -/
theorem poisson_updateProperties_contract_witness :
    ((5 : ℕ) % 5 = 0 ∧
      updateProperties (some 5) 0 0 0 0 wModel = updateProperties none 0 0 0 0 wModel) ∧
    ((1 : ℕ) % 5 ≠ 0 ∧
      ∃ s : ℝ × ℝ,
        updateProperties (some 1) 0 0 0 (1 / 2) wModel
          = some { wModel with drum := some { wDrum with strike := s } } ∧
        0 ≤ s.1 ∧ s.1 ≤ Real.sqrt wDrum.epsilon ∧
        0 ≤ s.2 ∧ s.2 ≤ 1 / Real.sqrt wDrum.epsilon) :=
  ⟨⟨by norm_num,
    poisson_updateProperties_contract.2.1 wModel 5 0 0 0 0 (by norm_num)⟩,
   ⟨by norm_num,
    poisson_updateProperties_contract.2.2 wModel wDrum 1 0 0 0 (1 / 2) rfl
      (by norm_num) (by norm_num) (by norm_num) (by norm_num) (by norm_num)⟩⟩

theorem le_foldl_max (xs : List ℝ) (a : ℝ) : a ≤ xs.foldl max a := by
  induction xs generalizing a with
  | nil => exact le_refl a
  | cons y ys ih => exact le_trans (le_max_left a y) (ih (max a y))

theorem mem_le_foldl_max (x : ℝ) (xs : List ℝ) :
    ∀ a : ℝ, x ∈ xs → x ≤ xs.foldl max a := by
  induction xs with
  | nil => intro a hx; cases hx
  | cons y ys ih =>
    intro a hx
    rcases List.mem_cons.mp hx with h | h
    · subst h
      exact le_trans (le_max_right a x) (le_foldl_max ys (max a x))
    · exact ih (max a y) h

theorem le_listMax (x : ℝ) (l : List ℝ) (hx : x ∈ l) : x ≤ listMax l := by
  cases l with
  | nil => cases hx
  | cons y ys =>
    unfold listMax
    rcases List.mem_cons.mp hx with h | h
    · subst h
      exact le_foldl_max ys x
    · exact mem_le_foldl_max x ys y h

theorem abs_list_sum_le (l : List ℝ) (c : ℝ) (h : ∀ x ∈ l, |x| ≤ c) :
    |l.sum| ≤ l.length * c := by
  induction l with
  | nil => simp
  | cons y ys ih =>
    have h1 : |y| ≤ c := h y (List.mem_cons_self y ys)
    have h2 : |ys.sum| ≤ ys.length * c :=
      ih fun x hx => h x (List.mem_cons_of_mem y hx)
    calc |(y :: ys).sum| = |y + ys.sum| := by rw [List.sum_cons]
      _ ≤ |y| + |ys.sum| := abs_add y ys.sum
      _ ≤ c + ys.length * c := add_le_add h1 h2
      _ = ((y :: ys).length : ℝ) * c := by
          rw [List.length_cons]
          push_cast
          ring

/-- C1 (amended): once a size/series has been initialised, whenever the decay
constant is non-positive (as produced by any `decay_time` in (0, ∞]), the
amplitude parameter is non-negative, the mode set is non-empty, and the
largest mode amplitude at the strike is non-zero, every sample written by
`generateWaveform` is a real number within [-1, 1]; and each sample equals
the sum over all modes of `A(mode) * exp(i * decay) * sin(i * omega(mode))`
divided by (number of modes * max amplitude). -/
theorem poisson_waveform_bounded (m : PoissonModel) (d : DrumProps)
    (hd : m.drum = some d) (hdec : m.decay ≤ 0) (ha : 0 ≤ m.a)
    (hn : (poissonOmega m d).length ≠ 0)
    (hmax : 0 < listMax (poissonA m d)) :
    (∀ i, i < m.length → ((generateWaveform m).waveform).get? i =
      some (some ((((poissonA m d).zip (poissonOmega m d)).map fun q =>
          q.1 * Real.exp ((i : ℝ) * m.decay) * Real.sin ((i : ℝ) * q.2)).sum
        / (((poissonOmega m d).length : ℝ) * listMax (poissonA m d))))) ∧
    (∀ w ∈ (generateWaveform m).waveform, ∃ v, w = some v ∧ -1 ≤ v ∧ v ≤ 1) := by
  have hden : 0 < ((poissonOmega m d).length : ℝ) * listMax (poissonA m d) :=
    mul_pos (by exact_mod_cast Nat.pos_of_ne_zero hn) hmax
  have hwf : (generateWaveform m).waveform =
      (List.range m.length).map (poissonSample (poissonA m d) (poissonOmega m d) m.decay) := by
    unfold generateWaveform
    rw [hd]
  have hbound : ∀ i : ℕ,
      |(((poissonA m d).zip (poissonOmega m d)).map fun q =>
          q.1 * Real.exp ((i : ℝ) * m.decay) * Real.sin ((i : ℝ) * q.2)).sum|
        ≤ ((poissonOmega m d).length : ℝ) * listMax (poissonA m d) := by
    intro i
    have hexp1 : Real.exp ((i : ℝ) * m.decay) ≤ 1 := by
      rw [← Real.exp_zero]
      exact Real.exp_le_exp.mpr (mul_nonpos_of_nonneg_of_nonpos (Nat.cast_nonneg i) hdec)
    have hterm : ∀ x ∈ ((poissonA m d).zip (poissonOmega m d)).map fun q =>
        q.1 * Real.exp ((i : ℝ) * m.decay) * Real.sin ((i : ℝ) * q.2),
        |x| ≤ listMax (poissonA m d) := by
      intro x hx
      obtain ⟨q, hq, rfl⟩ := List.mem_map.mp hx
      have hq1 : q.1 ∈ poissonA m d := (List.of_mem_zip hq).1
      have hq1nn : 0 ≤ q.1 := by
        obtain ⟨x0, _, hx0⟩ := List.mem_map.mp hq1
        rw [← hx0]
        exact mul_nonneg ha (abs_nonneg x0)
      have hq1le : q.1 ≤ listMax (poissonA m d) := le_listMax q.1 _ hq1
      have hexp0 : 0 < Real.exp ((i : ℝ) * m.decay) := Real.exp_pos _
      calc |q.1 * Real.exp ((i : ℝ) * m.decay) * Real.sin ((i : ℝ) * q.2)|
          = q.1 * Real.exp ((i : ℝ) * m.decay) * |Real.sin ((i : ℝ) * q.2)| := by
            rw [abs_mul, abs_mul, abs_of_nonneg hq1nn, abs_of_pos hexp0]
        _ ≤ q.1 * Real.exp ((i : ℝ) * m.decay) * 1 :=
            mul_le_mul_of_nonneg_left
              (abs_le.mpr ⟨Real.neg_one_le_sin _, Real.sin_le_one _⟩)
              (mul_nonneg hq1nn (le_of_lt hexp0))
        _ = q.1 * Real.exp ((i : ℝ) * m.decay) := mul_one _
        _ ≤ q.1 * 1 := mul_le_mul_of_nonneg_left hexp1 hq1nn
        _ = q.1 := mul_one _
        _ ≤ listMax (poissonA m d) := hq1le
    calc |(((poissonA m d).zip (poissonOmega m d)).map fun q =>
            q.1 * Real.exp ((i : ℝ) * m.decay) * Real.sin ((i : ℝ) * q.2)).sum|
        ≤ ((((poissonA m d).zip (poissonOmega m d)).map fun q =>
            q.1 * Real.exp ((i : ℝ) * m.decay) * Real.sin ((i : ℝ) * q.2)).length : ℝ)
          * listMax (poissonA m d) := abs_list_sum_le _ _ hterm
      _ ≤ ((poissonOmega m d).length : ℝ) * listMax (poissonA m d) := by
          apply mul_le_mul_of_nonneg_right _ (le_of_lt hmax)
          rw [List.length_map, List.length_zip]
          exact_mod_cast min_le_right _ _
  constructor
  · intro i hi
    rw [hwf, List.get?_map, List.get?_range hi, Option.map_some']
    unfold poissonSample
    rw [if_neg (ne_of_gt hden)]
  · intro w hw
    rw [hwf] at hw
    obtain ⟨i, _, rfl⟩ := List.mem_map.mp hw
    unfold poissonSample
    rw [if_neg (ne_of_gt hden)]
    refine ⟨_, rfl, ?_⟩
    rw [← abs_le, abs_div, abs_of_pos hden]
    exact (div_le_one hden).mpr (hbound i)

theorem range_one_eq : List.range 1 = [0] := rfl

theorem calcRectAmps_one_one (p : ℝ × ℝ) (eps : ℝ) :
    calculateRectangularAmplitudes p 1 1 eps =
      [[Real.sin (1 * Real.pi * p.1 / Real.sqrt eps) *
        Real.sin (1 * Real.pi * p.2 * Real.sqrt eps)]] := by
  unfold calculateRectangularAmplitudes
  rw [range_one_eq]
  simp only [List.map_cons, List.map_nil, Nat.cast_zero, zero_add]

theorem wModel_A_eq : poissonA wModel wDrum = [1] := by
  unfold poissonA
  show ((calculateRectangularAmplitudes ((1 : ℝ) / 2, (1 : ℝ) / 2) 1 1 1).flatten.map
    fun x => (1 : ℝ) * |x|) = [1]
  rw [calcRectAmps_one_one]
  have h1 : (1 : ℝ) * Real.pi * ((1 : ℝ) / 2, (1 : ℝ) / 2).1 / Real.sqrt 1 = Real.pi / 2 := by
    rw [Real.sqrt_one]
    ring
  have h2 : (1 : ℝ) * Real.pi * ((1 : ℝ) / 2, (1 : ℝ) / 2).2 * Real.sqrt 1 = Real.pi / 2 := by
    rw [Real.sqrt_one]
    ring
  rw [h1, h2, Real.sin_pi_div_two]
  show [(1 : ℝ) * |(1 : ℝ) * 1|] = [1]
  norm_num

theorem wModel_omega_length : (poissonOmega wModel wDrum).length = 1 := by
  unfold poissonOmega
  rw [List.length_map]
  rfl

/-- C1 witness: the amended bound applied to the concrete one-mode model
`wModel` (aspect ratio 1, centroid strike, zero decay constant), whose
maximal mode amplitude is 1. -/
theorem poisson_waveform_bounded_witness :
    wModel.decay ≤ 0 ∧ (0 : ℝ) ≤ wModel.a ∧
    (poissonOmega wModel wDrum).length ≠ 0 ∧
    0 < listMax (poissonA wModel wDrum) ∧
    (∀ w ∈ (generateWaveform wModel).waveform, ∃ v, w = some v ∧ -1 ≤ v ∧ v ≤ 1) :=
  ⟨le_refl 0, zero_le_one,
   by rw [wModel_omega_length]; exact one_ne_zero,
   by rw [wModel_A_eq]; exact zero_lt_one,
   (poisson_waveform_bounded wModel wDrum rfl (le_refl 0) zero_le_one
     (by rw [wModel_omega_length]; exact one_ne_zero)
     (by rw [wModel_A_eq]; exact zero_lt_one)).2⟩

/-- The model state of the C1 counterexample: identical to `wModel` except
that the strike sits on the `x = 0` edge of the valid strike domain
[0, ε^0.5] × [0, 1/ε^0.5] — a location `random.uniform(0., epsilon ** 0.5)`
can legitimately return.  `cModel_reachable` below derives this state from
the constructor and two `updateProperties` calls. -/
def cDrum : DrumProps :=
  { epsilon := 1
    L := 1
    gamma := 1
    series := calculateRectangularSeries 1 1 1
    strike := (0, 1 / 2) }

def cModel : PoissonModel :=
  { duration := 1, sample_rate := 1, length := 1, waveform := [some 0],
    a := 1, d_60 := none, M := 1, N := 1, p := 1, t := 1,
    c := 1, k := 1, decay := 0, drum := some cDrum }

theorem cModel_reachable :
    updateProperties (some 1) 0 0 0 (1 / 2)
      (resizeDrum (1 / 5) (9 / 19) (PoissonModel.init 1 1 1 none 1 1 1 1)) = some cModel := by
  have hu1 : uniform 0.25 4 (1 / 5) = 1 := by
    unfold uniform
    norm_num
  have hu2 : uniform 0.1 2 (9 / 19) = 1 := by
    unfold uniform
    norm_num
  simp only [updateProperties, resizeDrum, PoissonModel.init, hu1, hu2]
  norm_num [cModel, cDrum, uniform, divByMaybeInf, Real.sqrt_one]

theorem cModel_A_eq : poissonA cModel cDrum = [0] := by
  unfold poissonA
  show ((calculateRectangularAmplitudes ((0 : ℝ), (1 : ℝ) / 2) 1 1 1).flatten.map
    fun x => (1 : ℝ) * |x|) = [0]
  rw [calcRectAmps_one_one]
  have h1 : (1 : ℝ) * Real.pi * ((0 : ℝ), (1 : ℝ) / 2).1 / Real.sqrt 1 = 0 := by
    rw [Real.sqrt_one]
    ring
  rw [h1, Real.sin_zero, zero_mul]
  show [(1 : ℝ) * |(0 : ℝ)|] = [0]
  norm_num

theorem cModel_waveform_nan : (generateWaveform cModel).waveform = [none] := by
  have hd : cModel.drum = some cDrum := rfl
  unfold generateWaveform
  rw [hd]
  show (List.range cModel.length).map
      (poissonSample (poissonA cModel cDrum) (poissonOmega cModel cDrum) cModel.decay)
    = [none]
  rw [show cModel.length = 1 from rfl, range_one_eq]
  simp only [List.map_cons, List.map_nil]
  unfold poissonSample
  rw [if_pos]
  rw [cModel_A_eq]
  show ((poissonOmega cModel cDrum).length : ℝ) * listMax [0] = 0
  rw [show listMax [(0 : ℝ)] = 0 from rfl, mul_zero]

theorem calcRectSeries_one_one (eps : ℝ) :
    calculateRectangularSeries 1 1 eps =
      [[Real.pi * Real.sqrt ((1 / Real.sqrt eps) ^ 2 + (1 * Real.sqrt eps) ^ 2)]] := by
  unfold calculateRectangularSeries
  rw [range_one_eq]
  simp only [List.map_cons, List.map_nil, Nat.cast_zero, zero_add]

/-- The model state of the second half of the C1 counterexample: a positive
decay constant.  `decay_time = -1` is accepted by the constructor and gives
`decay = -1 * k * 6 * ln(10) / (-1) = 6 * ln(10) > 0` at sample rate 1; the
drum is the unit-aspect drum of size 1 struck at the centroid, with
`gamma = c / L` for the wavespeed `c = 1 / (4 sqrt(2) pi)` obtained from
tension `c^2` at unit density, which puts the single phase rate at exactly
pi / 2. -/
def dDrum : DrumProps :=
  { epsilon := 1
    L := 1
    gamma := 1 / (4 * Real.sqrt 2 * Real.pi)
    series := calculateRectangularSeries 1 1 1
    strike := (1 / 2, 1 / 2) }

def dModel : PoissonModel :=
  { duration := 2, sample_rate := 1, length := 2, waveform := [some 0, some 0],
    a := 1, d_60 := some (-1), M := 1, N := 1, p := 1,
    t := (1 / (4 * Real.sqrt 2 * Real.pi)) ^ 2,
    c := 1 / (4 * Real.sqrt 2 * Real.pi), k := 1,
    decay := 6 * Real.log 10, drum := some dDrum }

theorem dModel_A_eq : poissonA dModel dDrum = [1] := by
  unfold poissonA
  show ((calculateRectangularAmplitudes ((1 : ℝ) / 2, (1 : ℝ) / 2) 1 1 1).flatten.map
    fun x => (1 : ℝ) * |x|) = [1]
  rw [calcRectAmps_one_one]
  have h1 : (1 : ℝ) * Real.pi * ((1 : ℝ) / 2, (1 : ℝ) / 2).1 / Real.sqrt 1 = Real.pi / 2 := by
    rw [Real.sqrt_one]
    ring
  have h2 : (1 : ℝ) * Real.pi * ((1 : ℝ) / 2, (1 : ℝ) / 2).2 * Real.sqrt 1 = Real.pi / 2 := by
    rw [Real.sqrt_one]
    ring
  rw [h1, h2, Real.sin_pi_div_two]
  show [(1 : ℝ) * |(1 : ℝ) * 1|] = [1]
  norm_num

theorem dModel_omega_eq : poissonOmega dModel dDrum = [Real.pi / 2] := by
  unfold poissonOmega
  show ((calculateRectangularSeries 1 1 1).flatten.map
    fun z => (1 / (4 * Real.sqrt 2 * Real.pi)) * z * (2 * Real.pi * 1)) = [Real.pi / 2]
  rw [calcRectSeries_one_one]
  have h1 : ((1 : ℝ) / Real.sqrt 1) ^ 2 + (1 * Real.sqrt 1) ^ 2 = (2 : ℝ) := by
    rw [Real.sqrt_one]
    norm_num
  rw [h1]
  have h2 : Real.sqrt 2 ≠ 0 := ne_of_gt (Real.sqrt_pos.mpr two_pos)
  have h3 : (1 / (4 * Real.sqrt 2 * Real.pi)) * (Real.pi * Real.sqrt 2) * (2 * Real.pi * 1)
      = Real.pi / 2 := by
    field_simp
    ring
  show [(1 / (4 * Real.sqrt 2 * Real.pi)) * (Real.pi * Real.sqrt 2) * (2 * Real.pi * 1)]
    = [Real.pi / 2]
  rw [h3]

theorem dModel_sample_one :
    poissonSample (poissonA dModel dDrum) (poissonOmega dModel dDrum) dModel.decay 1
      = some (Real.exp (6 * Real.log 10)) := by
  rw [dModel_A_eq, dModel_omega_eq]
  show poissonSample [1] [Real.pi / 2] (6 * Real.log 10) 1 = some (Real.exp (6 * Real.log 10))
  unfold poissonSample
  rw [if_neg (by norm_num [listMax])]
  have h1 : ((1 : ℕ) : ℝ) * (Real.pi / 2) = Real.pi / 2 := by norm_num
  show some ((([((1 : ℝ), Real.pi / 2)]).map fun q =>
      q.1 * Real.exp (((1 : ℕ) : ℝ) * (6 * Real.log 10)) * Real.sin (((1 : ℕ) : ℝ) * q.2)).sum
    / (((1 : ℕ) : ℝ) * listMax [1])) = some (Real.exp (6 * Real.log 10))
  simp only [List.map_cons, List.map_nil, List.sum_cons, List.sum_nil]
  rw [h1, Real.sin_pi_div_two]
  norm_num [listMax]

theorem dModel_waveform_eq :
    (generateWaveform dModel).waveform =
      [poissonSample (poissonA dModel dDrum) (poissonOmega dModel dDrum) dModel.decay 0,
       poissonSample (poissonA dModel dDrum) (poissonOmega dModel dDrum) dModel.decay 1] := by
  have hd : dModel.drum = some dDrum := rfl
  unfold generateWaveform
  rw [hd]
  show (List.range dModel.length).map
      (poissonSample (poissonA dModel dDrum) (poissonOmega dModel dDrum) dModel.decay) = _
  rw [show dModel.length = 2 from rfl, show List.range 2 = [0, 1] from rfl]
  simp only [List.map_cons, List.map_nil]

/-- C1 counterexample, refuting the claim as stated at two concrete parameter
choices.  First: with the strike on the `x = 0` edge of the valid strike
domain (a location `random.uniform(0., ...)` can return; the state is derived
from the constructor and two `updateProperties` calls in `cModel_reachable`),
every rectangular mode amplitude vanishes, so `np.max(A) = 0` and the
normalising division is 0/0 = NaN — the sample is not a real number in
[-1, 1] even with the benign decay constant 0.  Second: the finite positive
decay constant `6 ln 10` (from the constructor input `decay_time = -1` at
sample rate 1) drives the sample at index 1 to `exp(6 ln 10) = 10^6 > 1`,
breaching the bound at an interior (centroid) strike. -/
theorem poisson_waveform_counterexample :
    (¬ ∀ w ∈ (generateWaveform cModel).waveform, ∃ v, w = some v ∧ -1 ≤ v ∧ v ≤ 1) ∧
    (¬ ∀ w ∈ (generateWaveform dModel).waveform, ∃ v, w = some v ∧ -1 ≤ v ∧ v ≤ 1) := by
  constructor
  · intro h
    obtain ⟨v, hv, _⟩ := h none (by rw [cModel_waveform_nan]; exact List.mem_singleton.mpr rfl)
    exact Option.noConfusion hv
  · intro h
    obtain ⟨v, hv, _, hle⟩ := h
      (poissonSample (poissonA dModel dDrum) (poissonOmega dModel dDrum) dModel.decay 1)
      (by rw [dModel_waveform_eq]
          exact List.mem_cons_of_mem _ (List.mem_singleton.mpr rfl))
    rw [dModel_sample_one] at hv
    injection hv with hv
    rw [← hv] at hle
    have hgt : (1 : ℝ) < Real.exp (6 * Real.log 10) := by
      rw [show (1 : ℝ) = Real.exp 0 from Real.exp_zero.symm]
      exact Real.exp_lt_exp.mpr (by positivity)
    exact absurd hle (not_le.mpr hgt)

end

end KacDrumset
